import Mathlib

/-!
Verification of vsv (a runit service manager written in Rust).

Rust strings (`String` / `&str`) are modelled as `List Char`: Rust's
`s.chars()` is the list itself, Rust's `s.len()` (the UTF-8 byte length) is
`utf8Len`, and filesystem paths (`PathBuf`) are lists of components, i.e.
`List (List Char)`.  The filesystem and process table are modelled by the
finite structure `FS` below; every fallible system call returns an
`Except IOKind`.
-/

namespace Vsv

/-- Rust `str::len()`: the UTF-8 byte length of a string. -/
def utf8Len (s : List Char) : Nat := (s.map Char.utf8Size).sum

/-- The Unicode White_Space code points, as tested by Rust `char::is_whitespace`. -/
def rustIsWhitespace (c : Char) : Bool :=
  [0x09, 0x0A, 0x0B, 0x0C, 0x0D, 0x20, 0x85, 0xA0, 0x1680,
   0x2000, 0x2001, 0x2002, 0x2003, 0x2004, 0x2005, 0x2006, 0x2007, 0x2008,
   0x2009, 0x200A, 0x2028, 0x2029, 0x202F, 0x205F, 0x3000].contains c.toNat

/-- Rust `str::trim`: drop leading and trailing whitespace. -/
def rustTrim (s : List Char) : List Char :=
  ((s.dropWhile rustIsWhitespace).reverse.dropWhile rustIsWhitespace).reverse

/-- The value of a non-empty all-digit string, as consumed by Rust integer
parsing after the optional sign. -/
def digitsVal (cs : List Char) : Option Nat :=
  if cs.isEmpty then none
  else if cs.all Char.isDigit then
    some (cs.foldl (fun a c => a * 10 + (c.toNat - 48)) 0)
  else none

/-- Rust `i32::from_str` (the `parse::<pid_t>()` call in `get_pid`): an
optional `+`/`-` sign followed by one or more ASCII digits, rejected on
overflow of the `i32` range. -/
def parse_i32 (s : List Char) : Option Int :=
  match s with
  | '+' :: rest =>
    (digitsVal rest).bind fun n =>
      if (n : Int) ≤ 2 ^ 31 - 1 then some (n : Int) else none
  | '-' :: rest =>
    (digitsVal rest).bind fun n =>
      if (n : Int) ≤ 2 ^ 31 then some (-(n : Int)) else none
  | _ =>
    (digitsVal s).bind fun n =>
      if (n : Int) ≤ 2 ^ 31 - 1 then some (n : Int) else none

/-- utils.rs `trim_long_string`.  `none` models the `assert!(limit > suffix_len,
"number too small")` panic.  Note the source compares the BYTE length
(`s.len()`) against `limit` but cuts by CHARACTER count (`s.chars().take(..)`). -/
def trim_long_string (s : List Char) (limit : Nat) (suffix : List Char) :
    Option (List Char) :=
  let suffix_len := utf8Len suffix
  if limit ≤ suffix_len then none
  else
    let len := utf8Len s
    if len < limit then some s
    else some (s.take (limit - suffix_len) ++ suffix)

/-- Rust `format!(" {0:1$}", text, max)`: a leading space and the text
right-padded with spaces to `max` characters (never truncated by padding).
The `yansi` style is modelled as the identity, as when colorization is off. -/
def padColumn (text : List Char) (width : Nat) : List Char :=
  text ++ List.replicate (width - text.length) ' '

/-- utils.rs `format_status_line`: the seven columns with their hard-coded
`(max width, suffix)` pairs, each trimmed then padded, joined by single
leading spaces.  `none` models a `trim_long_string` panic (which the
theorems show cannot happen). -/
def format_status_line
    (status_char name state enabled pid command time : List Char) :
    Option (List Char) :=
  let data : List (List Char × Nat × List Char) :=
    [(status_char, 1, []),
     (name, 20, '.' :: '.' :: '.' :: []),
     (state, 7, '.' :: '.' :: '.' :: []),
     (enabled, 9, '.' :: '.' :: '.' :: []),
     (pid, 8, '.' :: '.' :: '.' :: []),
     (command, 17, '.' :: '.' :: '.' :: []),
     (time, 99, '.' :: '.' :: '.' :: [])]
  data.foldlM
    (fun line col =>
      match col with
      | (text, width, suffix) =>
        (trim_long_string text width suffix).map
          fun t => line ++ ' ' :: padColumn t width)
    []

/-- The error kind of a failed system call (`std::io::ErrorKind`): only the
kinds the program distinguishes are modelled — `NotFound` versus everything
else (represented by `permission`). -/
inductive IOKind
  | notFound
  | permission
deriving DecidableEq

/-- A model filesystem: files with contents, existing directories, paths on
which every operation fails with a non-`NotFound` error (`deny`), and
per-path modification times. -/
structure FS where
  files : List (List (List Char) × List Char)
  dirs : List (List (List Char))
  deny : List (List (List Char))
  mtimes : List (List (List Char) × Nat)
deriving DecidableEq

/-- `fs::read_to_string`. -/
def FS.readFile (fs : FS) (p : List (List Char)) : Except IOKind (List Char) :=
  if fs.deny.contains p then .error .permission
  else
    match fs.files.find? (fun e => e.1 = p) with
    | some e => .ok e.2
    | none => .error .notFound

/-- `Path::exists`. -/
def FS.pathExists (fs : FS) (p : List (List Char)) : Bool :=
  fs.files.any (fun e => e.1 = p) || fs.dirs.contains p

/-- `fs::remove_file`. -/
def FS.removeFile (fs : FS) (p : List (List Char)) : Except IOKind FS :=
  if fs.deny.contains p then .error .permission
  else if fs.files.any (fun e => e.1 = p) then
    .ok { fs with files := fs.files.filter (fun e => e.1 ≠ p) }
  else .error .notFound

/-- `fs::File::create` (creates an empty file, truncates an existing one). -/
def FS.createFile (fs : FS) (p : List (List Char)) : Except IOKind FS :=
  if fs.deny.contains p then .error .permission
  else .ok { fs with files := (p, []) :: fs.files.filter (fun e => e.1 ≠ p) }

/-- `fs::metadata(p)?.modified()?`. -/
def FS.mtime (fs : FS) (p : List (List Char)) : Except IOKind Nat :=
  if fs.deny.contains p then .error .permission
  else
    match fs.mtimes.find? (fun e => e.1 = p) with
    | some e => .ok e.2
    | none => .error .notFound

/-- runit.rs `RunitServiceState`. -/
inductive RunitServiceState
  | Run
  | Down
  | Finish
  | Unknown
deriving DecidableEq

/-- runit.rs `RunitService`: a path and a name.  The Rust struct derives
`Ord`, which compares the fields in declaration order: `path` first,
then `name` (see `serviceCmp`). -/
structure RunitService where
  path : List (List Char)
  name : List Char
deriving DecidableEq

/-- runit.rs `RunitService::new`. -/
def RunitService.new (name : List Char) (path : List (List Char)) :
    RunitService :=
  { path := path, name := name }

/-- The `supervise` control subdirectory: `self.path.join("supervise")`. -/
def RunitService.superviseDir (svc : RunitService) : List (List Char) :=
  svc.path ++ ["supervise".toList]

/-- The sentinel file path: `self.path.join("down")`. -/
def RunitService.downPath (svc : RunitService) : List (List Char) :=
  svc.path ++ ["down".toList]

/-- The pid file path: `self.path.join("supervise").join("pid")`. -/
def RunitService.pidPath (svc : RunitService) : List (List Char) :=
  svc.path ++ ["supervise".toList, "pid".toList]

/-- The status file path: `self.path.join("supervise").join("stat")`. -/
def RunitService.statPath (svc : RunitService) : List (List Char) :=
  svc.path ++ ["supervise".toList, "stat".toList]

/-- runit.rs `RunitService::valid`: the `supervise` subdirectory exists. -/
def RunitService.valid (svc : RunitService) (fs : FS) : Bool :=
  fs.pathExists svc.superviseDir

/-- runit.rs `RunitService::enabled`: the `down` sentinel file is absent. -/
def RunitService.enabled (svc : RunitService) (fs : FS) : Bool :=
  !(fs.pathExists svc.downPath)

/-- runit.rs `RunitService::enable`: remove the `down` sentinel; an
`ErrorKind::NotFound` failure is considered success.  On success the new
filesystem is returned. -/
def RunitService.enable (svc : RunitService) (fs : FS) : Except IOKind FS :=
  match fs.removeFile svc.downPath with
  | .error .notFound => .ok fs
  | .error k => .error k
  | .ok fs2 => .ok fs2

/-- runit.rs `RunitService::disable`: create the `down` sentinel file. -/
def RunitService.disable (svc : RunitService) (fs : FS) : Except IOKind FS :=
  fs.createFile svc.downPath

/-- An error from `RunitService::get_pid`: an I/O failure of the read, or a
parse failure of the contents. -/
inductive GetPidErr
  | io (k : IOKind)
  | parse
deriving DecidableEq

/-- runit.rs `RunitService::get_pid`: read `supervise/pid`, trim, parse as
`pid_t` (i32); both failures are returned to the caller. -/
def RunitService.get_pid (svc : RunitService) (fs : FS) :
    Except GetPidErr Int :=
  match fs.readFile svc.pidPath with
  | .error k => .error (.io k)
  | .ok s =>
    match parse_i32 (rustTrim s) with
    | none => .error .parse
    | some v => .ok v

/-- runit.rs `RunitService::get_state`: read `supervise/stat`, substituting
the string `"unknown"` on any read failure, then match the trimmed content. -/
def RunitService.get_state (svc : RunitService) (fs : FS) :
    RunitServiceState :=
  let s :=
    match fs.readFile svc.statPath with
    | .error _ => "unknown".toList
    | .ok s => s
  if rustTrim s = "run".toList then .Run
  else if rustTrim s = "down".toList then .Down
  else if rustTrim s = "finish".toList then .Finish
  else .Unknown

/-- runit.rs `RunitService::get_start_time`: the modification time of
`supervise/stat`. -/
def RunitService.get_start_time (svc : RunitService) (fs : FS) :
    Except IOKind Nat :=
  fs.mtime svc.statPath

/-- Byte-wise comparison of two Rust strings (`Ord` on `String`/`OsStr`).
Comparing UTF-8 byte sequences lexicographically coincides with comparing
the scalar-value sequences lexicographically. -/
def charListCmp : List Char → List Char → Ordering
  | [], [] => .eq
  | [], _ :: _ => .lt
  | _ :: _, [] => .gt
  | a :: as, b :: bs =>
    if a.toNat < b.toNat then .lt
    else if b.toNat < a.toNat then .gt
    else charListCmp as bs

/-- `Ord` on `Path`/`PathBuf`: lexicographic over the component sequence,
each component compared byte-wise. -/
def pathCmp : List (List Char) → List (List Char) → Ordering
  | [], [] => .eq
  | [], _ :: _ => .lt
  | _ :: _, [] => .gt
  | a :: as, b :: bs =>
    match charListCmp a b with
    | .eq => pathCmp as bs
    | o => o

/-- The `#[derive(Ord)]` comparison on `RunitService`: `path` first, then
`name`. -/
def serviceCmp (a b : RunitService) : Ordering :=
  match pathCmp a.path b.path with
  | .eq => charListCmp a.name b.name
  | o => o

/-- The `≤` used by `Vec::sort` on `RunitService`. -/
def serviceLe (a b : RunitService) : Bool := serviceCmp a b ≠ .gt

/-- Byte-wise `≤` on Rust strings. -/
def charListLe (a b : List Char) : Bool := charListCmp a b ≠ .gt

/-- Rust `str::contains(&str)`: substring test. -/
def listContains (hay needle : List Char) : Bool :=
  if needle.isPrefixOf hay then true
  else
    match hay with
    | [] => false
    | _ :: t => listContains t needle

/-- One entry of `fs::read_dir`, as consumed by `get_services`: its base name
and whether `entry.path().is_dir()` holds.  (The source's errors for an
entry with no decodable base name cannot arise in this model, where names
are already strings.) -/
structure DirEntry where
  name : List Char
  isDir : Bool

/-- The collection loop of runit.rs `get_services`: keep directories, apply
the substring filter, push the service, and push the synthesized `log`
companion (path `<service>/log`, display name `"- log"`) when `log` is
set.  Output order is the enumeration order, before sorting. -/
def collectServices (root : List (List Char)) (log : Bool)
    (filter : Option (List Char)) : List DirEntry → List RunitService
  | [] => []
  | entry :: rest =>
    if !entry.isDir then collectServices root log filter rest
    else
      let name := entry.name
      if (match filter with
          | some f => !(listContains name f)
          | none => false) then
        collectServices root log filter rest
      else
        let p := root ++ [name]
        RunitService.new name p ::
          ((if log then [RunitService.new "- log".toList (p ++ ["log".toList])]
            else []) ++ collectServices root log filter rest)

/-- Stable insertion of `x` into a list: before the first element `y` with
`le x y`. -/
def insertLe {α : Type} (le : α → α → Bool) (x : α) : List α → List α
  | [] => [x]
  | y :: ys => if le x y then x :: y :: ys else y :: insertLe le x ys

/-- Insertion sort.  `Vec::sort` is a stable merge sort; under the total
order `serviceLe` (below) equal elements are identical values, so any
correct stable sort computes the same list, and this structurally
recursive sort models it exactly. -/
def sortLe {α : Type} (le : α → α → Bool) : List α → List α
  | [] => []
  | x :: xs => insertLe le x (sortLe le xs)

/-- runit.rs `get_services`: collect the services from the directory
enumeration, then `dirs.sort()` under the derived `(path, name)`
ordering. -/
def get_services (root : List (List Char)) (entries : List DirEntry)
    (log : Bool) (filter : Option (List Char)) : List RunitService :=
  sortLe serviceLe (collectServices root log filter entries)

/-- utils.rs `cmd_from_pid`: read `<proc_path>/<pid>/cmdline` and keep the
first NUL-separated segment (`data.split('\0').next()`).  `split` always
yields at least one segment, so the source's `None` arm is unreachable;
the first segment is everything before the first NUL byte. -/
def cmd_from_pid (fs : FS) (pid : Int) (proc_path : List (List Char)) :
    Except IOKind (List Char) :=
  match fs.readFile (proc_path ++ [(toString pid).toList, "cmdline".toList]) with
  | .error k => .error k
  | .ok data => .ok (data.takeWhile (fun c => c ≠ '\u0000'))

/-- service.rs `ServiceState`. -/
inductive ServiceState
  | Run
  | Down
  | Finish
  | Unknown
deriving DecidableEq

/-- A diagnostic message pushed by `Service::from_runit_service`.  The
source builds these with `format!`; they are modelled as tagged values
carrying the interpolated data. -/
inductive Msg
  | cmdFail (path : List (List Char)) (pid : Int) (err : IOKind)
  | pidFail (path : List (List Char)) (err : GetPidErr)
deriving DecidableEq

deriving instance DecidableEq for Except

/-- service.rs `Service`: the presentation projection of one `RunitService`. -/
structure Service where
  name : List Char
  state : ServiceState
  enabled : Bool
  command : Option (List Char)
  pid : Option Int
  start_time : Except IOKind Nat
  pstree : Option (Except Unit (List Char))
deriving DecidableEq

/-- service.rs `Service::from_runit_service`: build the view, degrading each
failing field and accumulating diagnostics; it never fails as a whole.
The external `pstree` child process is modelled by the oracle
`pstree_run`. -/
def Service.from_runit_service (fs : FS) (svc : RunitService)
    (want_pstree : Bool) (proc_path : List (List Char))
    (pstree_run : Int → Except Unit (List Char)) : Service × List Msg :=
  let messages : List Msg := []
  let name := svc.name
  let enabled := svc.enabled fs
  let pid := svc.get_pid fs
  let state := svc.get_state fs
  let start_time := svc.get_start_time fs
  let cm : Option (List Char) × List Msg :=
    match pid with
    | .ok p =>
      match cmd_from_pid fs p proc_path with
      | .ok cmd => (some cmd, messages)
      | .error err => (none, messages ++ [Msg.cmdFail svc.path p err])
    | .error _ => (none, messages)
  let command := cm.1
  let messages := cm.2
  let pm : Option Int × List Msg :=
    match pid with
    | .ok pid => (some pid, messages)
    | .error err => (none, messages ++ [Msg.pidFail svc.path err])
  let pidOpt := pm.1
  let messages := pm.2
  let pstree :=
    if want_pstree then pidOpt.map (fun pid => pstree_run pid) else none
  let state :=
    match state with
    | RunitServiceState.Run => ServiceState.Run
    | RunitServiceState.Down => ServiceState.Down
    | RunitServiceState.Finish => ServiceState.Finish
    | RunitServiceState.Unknown => ServiceState.Unknown
  ({ name := name, state := state, enabled := enabled, command := command,
     pid := pidOpt, start_time := start_time, pstree := pstree }, messages)

/-- config.rs `Mode`: the vsv execution modes. -/
inductive ProgramMode
  | Status
  | Enable
  | Disable
  | External
deriving DecidableEq

/-- The part of config.rs `Config` used by the mutation pipeline. -/
structure Config where
  svdir : List (List Char)
  operands : List (List Char)
  mode : ProgramMode

/-- The error returned by `_do_enable_disable` (an `anyhow!` string in the
source). -/
inductive EDError
  | noServices
  | failedToModify
deriving DecidableEq

/-- One iteration of the `_do_enable_disable` loop: build the service at
`svdir/name`; an invalid service is a failure with no filesystem access;
otherwise run `enable`/`disable` per mode.  Returns the filesystem after
the step and whether the target succeeded; `none` models the source's
`unreachable!` arm for the non-mutation modes. -/
def processTarget (fs : FS) (mode : ProgramMode) (svdir : List (List Char))
    (name : List Char) : Option (FS × Bool) :=
  let p := svdir ++ [name]
  let svc := RunitService.new name p
  if !(svc.valid fs) then some (fs, false)
  else
    match mode with
    | .Enable =>
      match svc.enable fs with
      | .ok fs2 => some (fs2, true)
      | .error _ => some (fs, false)
    | .Disable =>
      match svc.disable fs with
      | .ok fs2 => some (fs2, true)
      | .error _ => some (fs, false)
    | _ => none

/-- The `for name in &cfg.operands` loop of `_do_enable_disable`: every
target is attempted in order, threading the filesystem; the returned list
records per-target success. -/
def edLoop (mode : ProgramMode) (svdir : List (List Char)) (fs : FS) :
    List (List Char) → Option (FS × List Bool)
  | [] => some (fs, [])
  | name :: rest => do
    let s ← processTarget fs mode svdir name
    let r ← edLoop mode svdir s.1 rest
    pure (r.1, s.2 :: r.2)

/-- commands/enable_disable.rs `_do_enable_disable`: reject an empty operand
list, attempt every target, and fail overall iff any target failed.  The
returned `FS` is the world after the call — mutations of succeeding
targets persist even when the overall result is an error. -/
def do_enable_disable (cfg : Config) (fs : FS) :
    Option (FS × Except EDError Unit × List Bool) :=
  if cfg.operands.isEmpty then some (fs, .error .noServices, [])
  else do
    let r ← edLoop cfg.mode cfg.svdir fs cfg.operands
    pure (r.1,
      if r.2.contains false then .error .failedToModify else .ok (), r.2)

/-- The list is sorted under the `Vec::sort` ordering (derived `Ord`:
path, then name). -/
abbrev sortedByOrd (l : List RunitService) : Prop :=
  List.Pairwise (fun a b => serviceLe a b = true) l

/-- The list is sorted by service name, ascending byte-wise. -/
abbrev sortedByName (l : List RunitService) : Prop :=
  List.Pairwise (fun a b => charListLe a.name b.name = true) l

/-- An empty filesystem. -/
def fsEmpty : FS := { files := [], dirs := [], deny := [], mtimes := [] }

/-- A pstree oracle whose child process always fails. -/
def noPstree : Int → Except Unit (List Char) := fun _ => Except.error ()

/-- A sample service rooted at `sv/foo`. -/
def svcFoo : RunitService :=
  RunitService.new "foo".toList ["sv".toList, "foo".toList]

/-- A filesystem where `sv/foo/supervise/pid` contains `"0"`. -/
def fsPid0 : FS :=
  { files := [(["sv".toList, "foo".toList, "supervise".toList, "pid".toList],
               "0".toList)],
    dirs := [], deny := [], mtimes := [] }

/-- A filesystem where `sv/foo/supervise/pid` contains `"123"` and the
process table has no entry for pid 123. -/
def fsPid123 : FS :=
  { files := [(["sv".toList, "foo".toList, "supervise".toList, "pid".toList],
               "123".toList)],
    dirs := [], deny := [], mtimes := [] }

/-- A filesystem where `sv/foo/supervise/stat` contains `" run\n"`. -/
def fsStatRun : FS :=
  { files := [(["sv".toList, "foo".toList, "supervise".toList, "stat".toList],
               " run\n".toList)],
    dirs := [], deny := [], mtimes := [] }

/-- A filesystem where the `sv/foo/down` sentinel exists. -/
def fsDownPresent : FS :=
  { files := [(["sv".toList, "foo".toList, "down".toList], [])],
    dirs := [], deny := [], mtimes := [] }

/-- A configuration with no operands, in `Enable` mode. -/
def cfgNoOperands : Config :=
  { svdir := ["sv".toList], operands := [], mode := ProgramMode.Enable }

/-- Two plainly-named service directories, for the discovery counterexample. -/
def cexEntries : List DirEntry :=
  [{ name := "a".toList, isDir := true }, { name := "b".toList, isDir := true }]

/-- Two successive applications of `trim_long_string` with the same limit
and suffix (for the idempotence property). -/
def trimTwice (s : List Char) (limit : Nat) (suffix : List Char) :
    Option (List Char) :=
  (trim_long_string s limit suffix).bind fun t => trim_long_string t limit suffix

/-- A 100-character time string. -/
def timeA : List Char := List.replicate 100 'a'

/-- The 99-character truncation of `timeA`: its first 96 characters and the
`"..."` suffix. -/
def timeB : List Char := List.replicate 96 'a' ++ ['.', '.', '.']

end Vsv
namespace Vsv

lemma trim_eval_panic (s : List Char) (limit : Nat) (suffix : List Char)
    (h : limit ≤ utf8Len suffix) : trim_long_string s limit suffix = none := by
  simp [trim_long_string, h]

lemma trim_eval_lt (s : List Char) (limit : Nat) (suffix : List Char)
    (h1 : utf8Len suffix < limit) (h2 : utf8Len s < limit) :
    trim_long_string s limit suffix = some s := by
  simp [trim_long_string, Nat.not_le.mpr h1, h2]

lemma trim_eval_ge (s : List Char) (limit : Nat) (suffix : List Char)
    (h1 : utf8Len suffix < limit) (h2 : limit ≤ utf8Len s) :
    trim_long_string s limit suffix =
      some (s.take (limit - utf8Len suffix) ++ suffix) := by
  simp [trim_long_string, Nat.not_le.mpr h1, Nat.not_lt.mpr h2]

lemma trim_isSome (s : List Char) (limit : Nat) (suffix : List Char)
    (h : utf8Len suffix < limit) :
    ∃ t, trim_long_string s limit suffix = some t := by
  by_cases h2 : utf8Len s < limit
  · exact ⟨s, trim_eval_lt s limit suffix h h2⟩
  · exact ⟨_, trim_eval_ge s limit suffix h (Nat.not_lt.mp h2)⟩

lemma utf8Len_eq_length (s : List Char) (h : ∀ c ∈ s, c.utf8Size = 1) :
    utf8Len s = s.length := by
  induction s with
  | nil => rfl
  | cons c cs ih =>
    have hc := h c (List.mem_cons_self c cs)
    have ih2 := ih (fun x hx => h x (List.mem_cons_of_mem c hx))
    simp [utf8Len] at ih2 ⊢
    omega

lemma format_status_line_eval
    (c n st e p cm t tc tn tst te tp tcm tt : List Char)
    (hc : trim_long_string c 1 [] = some tc)
    (hn : trim_long_string n 20 ['.', '.', '.'] = some tn)
    (hst : trim_long_string st 7 ['.', '.', '.'] = some tst)
    (he : trim_long_string e 9 ['.', '.', '.'] = some te)
    (hp : trim_long_string p 8 ['.', '.', '.'] = some tp)
    (hcm : trim_long_string cm 17 ['.', '.', '.'] = some tcm)
    (ht : trim_long_string t 99 ['.', '.', '.'] = some tt) :
    format_status_line c n st e p cm t =
      some ((' ' :: padColumn tc 1) ++ (' ' :: padColumn tn 20) ++
        (' ' :: padColumn tst 7) ++ (' ' :: padColumn te 9) ++
        (' ' :: padColumn tp 8) ++ (' ' :: padColumn tcm 17) ++
        (' ' :: padColumn tt 99)) := by
  simp [format_status_line, List.foldlM, hc, hn, hst, he, hp, hcm, ht]



/-- C4 (amended): for every string `s`, width `w`, and suffix with
`w > len(suffix)` (byte length), `trim_long_string` returns `s` unchanged
when the BYTE length of `s` is strictly less than `w`, and otherwise
returns the first `w - len(suffix)` CHARACTERS of `s` followed by the
suffix.  The length comparison counts bytes (`s.len()`); only the cut
counts characters. -/
theorem trim_byte_compare (s : List Char) (limit : Nat) (suffix : List Char)
    (h : utf8Len suffix < limit) :
    (utf8Len s < limit → trim_long_string s limit suffix = some s) ∧
    (limit ≤ utf8Len s →
      trim_long_string s limit suffix =
        some (s.take (limit - utf8Len suffix) ++ suffix)) :=
  ⟨trim_eval_lt s limit suffix h, trim_eval_ge s limit suffix h⟩

/-- Witness for C4 at `s = "hello world"`, `w = 8`, `suffix = "..."`. -/
theorem trim_byte_compare_witness :
    trim_long_string "hello world".toList 8 "...".toList =
      some ("hello".toList ++ "...".toList) :=
  (trim_byte_compare "hello world".toList 8 "...".toList (by decide)).2 (by decide)

/-- C4 counterexample: `"éé"` has 2 characters (fewer than the limit 4) yet
4 bytes, so the claim "returns s unchanged exactly when the number of
characters of s is strictly less than w" is false: the code truncates it. -/
theorem trim_char_compare_cex :
    ("éé".toList).length < 4 ∧
    trim_long_string "éé".toList 4 ['.'] = some ("éé".toList ++ ['.']) ∧
    trim_long_string "éé".toList 4 ['.'] ≠ some "éé".toList := by decide

/-- C5 counterexample: truncating `"€€€€"` (4 characters, 12 bytes) at limit
12 with suffix `"..."` is not idempotent: the second application truncates
again. -/
theorem trim_idempotent_cex :
    trimTwice "€€€€".toList 12 "...".toList ≠
      trim_long_string "€€€€".toList 12 "...".toList := by decide

lemma utf8Len_append (a b : List Char) :
    utf8Len (a ++ b) = utf8Len a + utf8Len b := by
  simp [utf8Len]

/-- C5 (amended): `trim_long_string` is idempotent provided every character
of `s` and of the suffix is single-byte (so byte length equals character
count), and `w > len(suffix)`. -/
theorem trim_idempotent_ascii (s : List Char) (limit : Nat) (suffix : List Char)
    (hs : ∀ c ∈ s, c.utf8Size = 1) (hsuf : ∀ c ∈ suffix, c.utf8Size = 1)
    (h : utf8Len suffix < limit) :
    trimTwice s limit suffix = trim_long_string s limit suffix := by
  unfold trimTwice
  by_cases h2 : utf8Len s < limit
  · simp [trim_eval_lt s limit suffix h h2]
  · have h2 : limit ≤ utf8Len s := Nat.not_lt.mp h2
    have hsufl : utf8Len suffix = suffix.length := utf8Len_eq_length suffix hsuf
    have hsl : utf8Len s = s.length := utf8Len_eq_length s hs
    have htake : ∀ c ∈ s.take (limit - utf8Len suffix), c.utf8Size = 1 :=
      fun c hc => hs c (List.mem_of_mem_take hc)
    have htlen : (s.take (limit - utf8Len suffix)).length = limit - utf8Len suffix := by
      rw [List.length_take]
      omega
    have hlent : utf8Len (s.take (limit - utf8Len suffix) ++ suffix) = limit := by
      rw [utf8Len_append, utf8Len_eq_length _ htake, htlen]
      omega
    set A := s.take (limit - utf8Len suffix) with hA
    have hstep : trim_long_string (A ++ suffix) limit suffix =
        some (A ++ suffix) := by
      rw [trim_eval_ge _ limit suffix h (le_of_eq hlent.symm)]
      congr 1
      rw [← htlen, List.take_left]
    simp [trim_eval_ge s limit suffix h h2, hstep]

/-- Witness for C5 at `s = "hello world"`, `w = 8`, `suffix = "..."`. -/
theorem trim_idempotent_ascii_witness :
    trimTwice "hello world".toList 8 "...".toList =
      trim_long_string "hello world".toList 8 "...".toList :=
  trim_idempotent_ascii "hello world".toList 8 "...".toList
    (by decide) (by decide) (by decide)

/-- C10: `trim_long_string` panics (returns `none`) exactly for the calls
where the limit is at most the byte length of the suffix; under the
precondition `limit > len(suffix)` it never panics; and every one of the
seven `(width, suffix)` pairs hard-coded in `format_status_line` satisfies
the precondition, so rendering a status line always produces a line and
can never trigger the panic. -/
theorem trim_assert_and_render_safe :
    (∀ s limit suffix, limit ≤ utf8Len suffix →
      trim_long_string s limit suffix = none) ∧
    (∀ s limit suffix, utf8Len suffix < limit →
      ∃ t, trim_long_string s limit suffix = some t) ∧
    (∀ c n st e p cm t, ∃ line, format_status_line c n st e p cm t = some line) := by
  refine ⟨trim_eval_panic, trim_isSome, ?_⟩
  intro c n st e p cm t
  obtain ⟨tc, hc⟩ := trim_isSome c 1 [] (by decide)
  obtain ⟨tn, hn⟩ := trim_isSome n 20 ['.', '.', '.'] (by decide)
  obtain ⟨tst, hst⟩ := trim_isSome st 7 ['.', '.', '.'] (by decide)
  obtain ⟨te, he⟩ := trim_isSome e 9 ['.', '.', '.'] (by decide)
  obtain ⟨tp, hp2⟩ := trim_isSome p 8 ['.', '.', '.'] (by decide)
  obtain ⟨tcm, hcm⟩ := trim_isSome cm 17 ['.', '.', '.'] (by decide)
  obtain ⟨tt, ht⟩ := trim_isSome t 99 ['.', '.', '.'] (by decide)
  exact ⟨_, format_status_line_eval c n st e p cm t tc tn tst te tp tcm tt
    hc hn hst he hp2 hcm ht⟩

/-- Witness for C10: the assert fires at `limit = 3`, `suffix = "..."`. -/
theorem trim_assert_witness :
    trim_long_string "hello".toList 3 "...".toList = none :=
  trim_assert_and_render_safe.1 "hello".toList 3 "...".toList (by decide)

set_option maxRecDepth 4000 in
/-- C3 counterexample: a 100-character time string and its 99-byte
truncation render to the same status line, so the time column is NOT
emitted without truncation; `trim_long_string` cuts it at width 99. -/
theorem format_time_truncation_cex :
    format_status_line [] [] [] [] [] [] timeA =
      format_status_line [] [] [] [] [] [] timeB ∧
    timeA ≠ timeB ∧
    trim_long_string timeA 99 ['.', '.', '.'] = some timeB := by decide

/-- C3 (amended): every column of `format_status_line` is truncated via
`trim_long_string` at the fixed widths status-glyph=1 (empty suffix),
name=20, state=7, enabled=9, pid=8, command=17, and time=99 (suffix
`"..."` for all but the glyph); the time column is NOT unbounded: a time
string is emitted untruncated exactly when its byte length is below 99,
and otherwise is cut to its first 96 characters plus `"..."`. -/
theorem format_status_line_widths (c n st e p cm t : List Char) :
    ∃ tc tn tst te tp tcm tt,
      trim_long_string c 1 [] = some tc ∧
      trim_long_string n 20 ['.', '.', '.'] = some tn ∧
      trim_long_string st 7 ['.', '.', '.'] = some tst ∧
      trim_long_string e 9 ['.', '.', '.'] = some te ∧
      trim_long_string p 8 ['.', '.', '.'] = some tp ∧
      trim_long_string cm 17 ['.', '.', '.'] = some tcm ∧
      trim_long_string t 99 ['.', '.', '.'] = some tt ∧
      format_status_line c n st e p cm t =
        some ((' ' :: padColumn tc 1) ++ (' ' :: padColumn tn 20) ++
          (' ' :: padColumn tst 7) ++ (' ' :: padColumn te 9) ++
          (' ' :: padColumn tp 8) ++ (' ' :: padColumn tcm 17) ++
          (' ' :: padColumn tt 99)) ∧
      (utf8Len t < 99 → tt = t) ∧
      (99 ≤ utf8Len t → tt = t.take 96 ++ ['.', '.', '.']) := by
  obtain ⟨tc, hc⟩ := trim_isSome c 1 [] (by decide)
  obtain ⟨tn, hn⟩ := trim_isSome n 20 ['.', '.', '.'] (by decide)
  obtain ⟨tst, hst⟩ := trim_isSome st 7 ['.', '.', '.'] (by decide)
  obtain ⟨te, he⟩ := trim_isSome e 9 ['.', '.', '.'] (by decide)
  obtain ⟨tp, hp2⟩ := trim_isSome p 8 ['.', '.', '.'] (by decide)
  obtain ⟨tcm, hcm⟩ := trim_isSome cm 17 ['.', '.', '.'] (by decide)
  obtain ⟨tt, ht⟩ := trim_isSome t 99 ['.', '.', '.'] (by decide)
  refine ⟨tc, tn, tst, te, tp, tcm, tt, hc, hn, hst, he, hp2, hcm, ht,
    format_status_line_eval c n st e p cm t tc tn tst te tp tcm tt
      hc hn hst he hp2 hcm ht, ?_, ?_⟩
  · intro hlt
    have := trim_eval_lt t 99 ['.', '.', '.'] (by decide) hlt
    rw [this] at ht
    exact (Option.some.inj ht).symm
  · intro hge
    have := trim_eval_ge t 99 ['.', '.', '.'] (by decide) hge
    rw [this] at ht
    have h96 : (99 : Nat) - utf8Len ['.', '.', '.'] = 96 := by decide
    rw [h96] at ht
    exact (Option.some.inj ht).symm

/-- Witness for C3: a concrete row renders to a line. -/
theorem format_status_line_widths_witness :
    (format_status_line "?".toList "foo".toList "run".toList "true".toList
      "123".toList "cmd".toList "5 seconds".toList).isSome = true := by
  obtain ⟨tc, tn, tst, te, tp, tcm, tt, h⟩ :=
    format_status_line_widths "?".toList "foo".toList "run".toList
      "true".toList "123".toList "cmd".toList "5 seconds".toList
  rw [h.2.2.2.2.2.2.2.1]
  rfl


/-- C7: `get_state` is total: it returns `Run`, `Down`, or `Finish` exactly
when the trimmed content of the `supervise/stat` file is `"run"`,
`"down"`, or `"finish"` respectively, and returns `Unknown` on any I/O
failure or any other content, never propagating an error. -/
theorem get_state_total_spec (fs : FS) (svc : RunitService) :
    (svc.get_state fs = RunitServiceState.Run ↔
      ∃ s, fs.readFile svc.statPath = Except.ok s ∧ rustTrim s = "run".toList) ∧
    (svc.get_state fs = RunitServiceState.Down ↔
      ∃ s, fs.readFile svc.statPath = Except.ok s ∧ rustTrim s = "down".toList) ∧
    (svc.get_state fs = RunitServiceState.Finish ↔
      ∃ s, fs.readFile svc.statPath = Except.ok s ∧
        rustTrim s = "finish".toList) ∧
    (∀ k, fs.readFile svc.statPath = Except.error k →
      svc.get_state fs = RunitServiceState.Unknown) ∧
    (∀ s, fs.readFile svc.statPath = Except.ok s →
      rustTrim s ≠ "run".toList → rustTrim s ≠ "down".toList →
      rustTrim s ≠ "finish".toList →
      svc.get_state fs = RunitServiceState.Unknown) := by
  cases h : fs.readFile svc.statPath with
  | error k0 =>
    have hst : svc.get_state fs = RunitServiceState.Unknown := by
      simp [RunitService.get_state, h]
      decide
    refine ⟨?_, ?_, ?_, ?_, ?_⟩ <;> simp [hst, h]
  | ok s0 =>
    by_cases c1 : rustTrim s0 = "run".toList
    · simp at c1
      have hst : svc.get_state fs = RunitServiceState.Run := by
        simp [RunitService.get_state, h, c1]
      refine ⟨?_, ?_, ?_, ?_, ?_⟩ <;> simp [hst, h, c1]
    · simp at c1
      by_cases c2 : rustTrim s0 = "down".toList
      · simp at c2
        have hst : svc.get_state fs = RunitServiceState.Down := by
          simp [RunitService.get_state, h, c1, c2]
        refine ⟨?_, ?_, ?_, ?_, ?_⟩ <;> simp [hst, h, c1, c2]
      · simp at c2
        by_cases c3 : rustTrim s0 = "finish".toList
        · simp at c3
          have hst : svc.get_state fs = RunitServiceState.Finish := by
            simp [RunitService.get_state, h, c1, c2, c3]
          refine ⟨?_, ?_, ?_, ?_, ?_⟩ <;> simp [hst, h, c1, c2, c3]
        · simp at c3
          have hst : svc.get_state fs = RunitServiceState.Unknown := by
            simp [RunitService.get_state, h, c1, c2, c3]
          refine ⟨?_, ?_, ?_, ?_, ?_⟩ <;> simp [hst, h, c1, c2, c3]

/-- Witness for C7: a stat file containing `" run\n"` yields `Run`. -/
theorem get_state_witness : svcFoo.get_state fsStatRun = RunitServiceState.Run :=
  (get_state_total_spec fsStatRun svcFoo).1.mpr ⟨" run\n".toList, by decide, by decide⟩

/-- C8 (amended): `get_pid` reads `supervise/pid`, trims whitespace, and
succeeds exactly when the trimmed content parses as a decimal integer in
the `pid_t` (i32) range — an optional sign is accepted, so zero and
negative values parse too, not only positive ones; any I/O failure or
parse failure is returned as an error to the caller. -/
theorem get_pid_spec (fs : FS) (svc : RunitService) :
    (∀ v, svc.get_pid fs = Except.ok v ↔
      ∃ s, fs.readFile svc.pidPath = Except.ok s ∧
        parse_i32 (rustTrim s) = some v) ∧
    (∀ k, fs.readFile svc.pidPath = Except.error k →
      svc.get_pid fs = Except.error (GetPidErr.io k)) ∧
    (∀ s, fs.readFile svc.pidPath = Except.ok s →
      parse_i32 (rustTrim s) = none →
      svc.get_pid fs = Except.error GetPidErr.parse) := by
  cases h : fs.readFile svc.pidPath with
  | error k0 =>
    refine ⟨?_, ?_, ?_⟩ <;> simp [RunitService.get_pid, h]
  | ok s0 =>
    cases hp : parse_i32 (rustTrim s0) with
    | none => refine ⟨?_, ?_, ?_⟩ <;> simp [RunitService.get_pid, h, hp]
    | some v0 =>
      refine ⟨?_, ?_, ?_⟩ <;> simp [RunitService.get_pid, h, hp]

/-- C8 counterexample: a pid file containing `"0"` parses successfully even
though 0 is not a positive integer, so "succeeds exactly when the trimmed
content parses as a positive integer" is false. -/
theorem get_pid_positive_cex :
    svcFoo.get_pid fsPid0 = Except.ok 0 ∧ ¬ (0 : Int) > 0 ∧
    parse_i32 (rustTrim "0".toList) = some 0 := by decide

/-- Witness for C8: a pid file containing `"123"` yields pid 123. -/
theorem get_pid_witness :
    svcFoo.get_pid fsPid123 = Except.ok 123 :=
  ((get_pid_spec fsPid123 svcFoo).1 123).mpr ⟨"123".toList, by decide, by decide⟩



/-- C2: `from_runit_service` always builds a complete view, for every
combination of failing reads: the name, enabled flag and start time are
always present; a failed pid read degrades the pid to absent with a
diagnostic; and when the pid read succeeds but the command lookup fails, a
diagnostic is appended, the command is absent, and the pid is still
present in the view. -/
theorem from_runit_service_total_spec (fs : FS) (svc : RunitService)
    (wps : Bool) (proc : List (List Char))
    (ptr : Int → Except Unit (List Char)) :
    ((Service.from_runit_service fs svc wps proc ptr).1.name = svc.name) ∧
    ((Service.from_runit_service fs svc wps proc ptr).1.enabled =
      svc.enabled fs) ∧
    ((Service.from_runit_service fs svc wps proc ptr).1.start_time =
      svc.get_start_time fs) ∧
    (∀ p, svc.get_pid fs = Except.ok p →
      (Service.from_runit_service fs svc wps proc ptr).1.pid = some p) ∧
    (∀ e, svc.get_pid fs = Except.error e →
      (Service.from_runit_service fs svc wps proc ptr).1.pid = none ∧
      (Service.from_runit_service fs svc wps proc ptr).1.command = none ∧
      (Service.from_runit_service fs svc wps proc ptr).2 =
        [Msg.pidFail svc.path e]) ∧
    (∀ p k, svc.get_pid fs = Except.ok p →
      cmd_from_pid fs p proc = Except.error k →
      (Service.from_runit_service fs svc wps proc ptr).1.pid = some p ∧
      (Service.from_runit_service fs svc wps proc ptr).1.command = none ∧
      (Service.from_runit_service fs svc wps proc ptr).2 =
        [Msg.cmdFail svc.path p k]) ∧
    (∀ p c, svc.get_pid fs = Except.ok p →
      cmd_from_pid fs p proc = Except.ok c →
      (Service.from_runit_service fs svc wps proc ptr).1.command = some c ∧
      (Service.from_runit_service fs svc wps proc ptr).2 = []) := by
  cases hpid : svc.get_pid fs with
  | error e0 =>
    refine ⟨?_, ?_, ?_, ?_, ?_, ?_, ?_⟩ <;>
      simp [Service.from_runit_service, hpid]
  | ok p0 =>
    cases hcmd : cmd_from_pid fs p0 proc with
    | error k0 =>
      refine ⟨?_, ?_, ?_, ?_, ?_, ?_, ?_⟩
      · simp [Service.from_runit_service, hpid, hcmd]
      · simp [Service.from_runit_service, hpid, hcmd]
      · simp [Service.from_runit_service, hpid, hcmd]
      · simp [Service.from_runit_service, hpid, hcmd]
      · simp [Service.from_runit_service, hpid, hcmd]
      · intro p k hp hk
        injection hp with hp
        subst hp
        rw [hcmd] at hk
        injection hk with hk
        subst hk
        simp [Service.from_runit_service, hpid, hcmd]
      · intro p c hp hc
        injection hp with hp
        subst hp
        rw [hcmd] at hc
        cases hc
    | ok c0 =>
      refine ⟨?_, ?_, ?_, ?_, ?_, ?_, ?_⟩
      · simp [Service.from_runit_service, hpid, hcmd]
      · simp [Service.from_runit_service, hpid, hcmd]
      · simp [Service.from_runit_service, hpid, hcmd]
      · simp [Service.from_runit_service, hpid, hcmd]
      · simp [Service.from_runit_service, hpid, hcmd]
      · intro p k hp hk
        injection hp with hp
        subst hp
        rw [hcmd] at hk
        cases hk
      · intro p c hp hc
        injection hp with hp
        subst hp
        rw [hcmd] at hc
        injection hc with hc
        subst hc
        simp [Service.from_runit_service, hpid, hcmd]

/-- Witness for C2: pid file reads 123 but the process table has no entry,
so the view keeps the pid, drops the command, and records a diagnostic. -/
theorem from_runit_service_witness :
    (Service.from_runit_service fsPid123 svcFoo false ["proc".toList]
      noPstree).1.pid = some 123 ∧
    (Service.from_runit_service fsPid123 svcFoo false ["proc".toList]
      noPstree).1.command = none ∧
    (Service.from_runit_service fsPid123 svcFoo false ["proc".toList]
      noPstree).2 = [Msg.cmdFail svcFoo.path 123 IOKind.notFound] :=
  (from_runit_service_total_spec fsPid123 svcFoo false ["proc".toList]
    noPstree).2.2.2.2.2.1 123 IOKind.notFound (by decide) (by decide)

/-- C9: `enable` removes the `down` sentinel file and returns success; when
the sentinel is already absent the `NotFound` error is converted to
success (idempotent enable); it fails only on filesystem errors other than
the file not existing. -/
theorem enable_spec (fs : FS) (svc : RunitService) :
    (fs.deny.contains svc.downPath = false →
      fs.files.any (fun e => e.1 = svc.downPath) = false →
      svc.enable fs = Except.ok fs) ∧
    (fs.deny.contains svc.downPath = false →
      fs.files.any (fun e => e.1 = svc.downPath) = true →
      svc.enable fs = Except.ok
        { fs with files := fs.files.filter (fun e => e.1 ≠ svc.downPath) } ∧
      (fs.files.filter (fun e => e.1 ≠ svc.downPath)).any
        (fun e => e.1 = svc.downPath) = false) ∧
    (fs.deny.contains svc.downPath = true →
      svc.enable fs = Except.error IOKind.permission) := by
  refine ⟨?_, ?_, ?_⟩
  · intro hd hp
    simp at hd
    simp [RunitService.enable, FS.removeFile, hd, hp]
  · intro hd hp
    simp at hd
    constructor
    · simp [RunitService.enable, FS.removeFile, hd, hp]
    · simp [List.any_eq_true, List.mem_filter]
  · intro hd
    simp at hd
    simp [RunitService.enable, FS.removeFile, hd]

/-- Witness for C9: enabling with the sentinel already absent succeeds and
leaves the filesystem unchanged. -/
theorem enable_witness :
    svcFoo.enable fsEmpty = Except.ok fsEmpty :=
  (enable_spec fsEmpty svcFoo).1 (by decide) (by decide)

lemma processTarget_isSome (fs : FS) (mode : ProgramMode)
    (svdir : List (List Char)) (name : List Char)
    (hm : mode = ProgramMode.Enable ∨ mode = ProgramMode.Disable) :
    ∃ r, processTarget fs mode svdir name = some r := by
  rcases hm with h | h <;> subst h <;>
    by_cases hv : (RunitService.new name (svdir ++ [name])).valid fs
  · cases he : (RunitService.new name (svdir ++ [name])).enable fs <;>
      simp [processTarget, hv, he]
  · simp [processTarget, hv]
  · cases he : (RunitService.new name (svdir ++ [name])).disable fs <;>
      simp [processTarget, hv, he]
  · simp [processTarget, hv]

lemma edLoop_some (mode : ProgramMode) (svdir : List (List Char))
    (hm : mode = ProgramMode.Enable ∨ mode = ProgramMode.Disable) :
    ∀ names fs, ∃ fs2 oks, edLoop mode svdir fs names = some (fs2, oks) ∧
      oks.length = names.length := by
  intro names
  induction names with
  | nil => intro fs; exact ⟨fs, [], rfl, rfl⟩
  | cons nm rest ih =>
    intro fs
    obtain ⟨⟨fs1, ok1⟩, h1⟩ := processTarget_isSome fs mode svdir nm hm
    obtain ⟨fs2, oks, h2, hl⟩ := ih fs1
    exact ⟨fs2, ok1 :: oks, by simp [edLoop, h1, h2], by simp [hl]⟩

/-- C6: the mutation pipeline returns an immediate error when given zero
targets; otherwise it attempts every named target with no early abort (one
outcome per operand), an invalid service is recorded as a failure without
touching the filesystem, the overall result is an error iff some target
failed, and the returned filesystem is the loop's final world, so every
succeeding target's mutation is applied even when the overall result is an
error. -/
theorem do_enable_disable_spec (cfg : Config) (fs : FS)
    (hm : cfg.mode = ProgramMode.Enable ∨ cfg.mode = ProgramMode.Disable) :
    (cfg.operands = [] →
      do_enable_disable cfg fs =
        some (fs, Except.error EDError.noServices, [])) ∧
    (∃ fs2 res oks, do_enable_disable cfg fs = some (fs2, res, oks) ∧
      (cfg.operands ≠ [] →
        edLoop cfg.mode cfg.svdir fs cfg.operands = some (fs2, oks) ∧
        oks.length = cfg.operands.length ∧
        ((∃ e, res = Except.error e) ↔ false ∈ oks))) ∧
    (∀ fs3 name, (RunitService.new name (cfg.svdir ++ [name])).valid fs3 =
        false →
      processTarget fs3 cfg.mode cfg.svdir name = some (fs3, false)) := by
  refine ⟨?_, ?_, ?_⟩
  · intro h
    simp [do_enable_disable, h]
  · by_cases hop : cfg.operands = []
    · exact ⟨fs, Except.error EDError.noServices, [],
        by simp [do_enable_disable, hop], fun hne => absurd hop hne⟩
    · obtain ⟨fs2, oks, h2, hl⟩ := edLoop_some cfg.mode cfg.svdir hm cfg.operands fs
      have hne : cfg.operands.isEmpty = false := by
        simp [List.isEmpty_iff, hop]
      refine ⟨fs2,
        if oks.contains false then Except.error EDError.failedToModify
        else Except.ok (), oks,
        by simp [do_enable_disable, hne, h2], fun _ => ⟨h2, hl, ?_⟩⟩
      by_cases hc : oks.contains false
      · rw [if_pos hc]
        simp only [true_iff, Except.error.injEq, exists_eq]
        constructor
        · intro _
          simpa using hc
        · intro _
          exact ⟨EDError.failedToModify, rfl⟩
      · rw [if_neg hc]
        constructor
        · intro hex
          obtain ⟨e, he⟩ := hex
          cases he
        · intro hmem
          exact absurd (by simpa using hmem) hc
  · intro fs3 name hval
    simp [processTarget, hval]

/-- Witness for C6: zero operands yield the immediate error. -/
theorem do_enable_disable_witness :
    do_enable_disable cfgNoOperands fsEmpty =
      some (fsEmpty, Except.error EDError.noServices, []) :=
  (do_enable_disable_spec cfgNoOperands fsEmpty (Or.inl rfl)).1 rfl



lemma char_toNat_inj {a b : Char} (h : a.toNat = b.toNat) : a = b := by
  have ha := Char.ofNat_toNat a
  rw [h, Char.ofNat_toNat] at ha
  exact ha.symm

lemma charListCmp_eq_iff (a : List Char) : ∀ b, charListCmp a b = .eq ↔ a = b := by
  induction a with
  | nil => intro b; cases b <;> simp [charListCmp]
  | cons x xs ih =>
    intro b
    cases b with
    | nil => simp [charListCmp]
    | cons y ys =>
      by_cases h1 : x.toNat < y.toNat
      · have hxy : x ≠ y := fun he => by rw [he] at h1; omega
        simp [charListCmp, h1, hxy]
      · by_cases h2 : y.toNat < x.toNat
        · have hxy : x ≠ y := fun he => by rw [he] at h2; omega
          simp [charListCmp, h1, h2, hxy]
        · have hxy : x = y := char_toNat_inj (by omega)
          simp [charListCmp, h1, h2, hxy, ih]

lemma charListCmp_self (a : List Char) : charListCmp a a = .eq :=
  (charListCmp_eq_iff a a).mpr rfl

lemma charListCmp_swap (a : List Char) : ∀ b, (charListCmp a b).swap = charListCmp b a := by
  induction a with
  | nil => intro b; cases b <;> simp [charListCmp, Ordering.swap]
  | cons x xs ih =>
    intro b
    cases b with
    | nil => simp [charListCmp, Ordering.swap]
    | cons y ys =>
      by_cases h1 : x.toNat < y.toNat
      · have h2 : ¬ y.toNat < x.toNat := by omega
        simp [charListCmp, h1, h2, Ordering.swap]
      · by_cases h2 : y.toNat < x.toNat
        · simp [charListCmp, h1, h2, Ordering.swap]
        · simp [charListCmp, h1, h2, ih]

lemma charListCmp_lt_trans (a : List Char) : ∀ (b c : List Char),
    charListCmp a b = .lt → charListCmp b c = .lt → charListCmp a c = .lt := by
  induction a with
  | nil =>
    intro b c h1 h2
    cases b with
    | nil => simp [charListCmp] at h1
    | cons y ys =>
      cases c with
      | nil => simp [charListCmp] at h2
      | cons z zs => simp [charListCmp]
  | cons x xs ih =>
    intro b c h1 h2
    cases b with
    | nil => simp [charListCmp] at h1
    | cons y ys =>
      cases c with
      | nil => simp [charListCmp] at h2
      | cons z zs =>
        simp only [charListCmp] at h1 h2 ⊢
        split_ifs at h1 h2 ⊢ <;> first
          | rfl
          | omega
          | (exact absurd h1 (by decide))
          | (exact absurd h2 (by decide))
          | (exact ih ys zs h1 h2)



lemma pathCmp_eq_iff (a : List (List Char)) : ∀ b, pathCmp a b = .eq ↔ a = b := by
  induction a with
  | nil => intro b; cases b <;> simp [pathCmp]
  | cons x xs ih =>
    intro b
    cases b with
    | nil => simp [pathCmp]
    | cons y ys =>
      cases hxy : charListCmp x y with
      | eq =>
        have hx : x = y := (charListCmp_eq_iff x y).mp hxy
        subst hx
        simp [pathCmp, hxy, ih]
      | lt =>
        have hx : x ≠ y := fun he => by
          rw [he, charListCmp_self] at hxy
          cases hxy
        simp [pathCmp, hxy, hx]
      | gt =>
        have hx : x ≠ y := fun he => by
          rw [he, charListCmp_self] at hxy
          cases hxy
        simp [pathCmp, hxy, hx]

lemma pathCmp_self (a : List (List Char)) : pathCmp a a = .eq :=
  (pathCmp_eq_iff a a).mpr rfl

lemma pathCmp_swap (a : List (List Char)) : ∀ b, (pathCmp a b).swap = pathCmp b a := by
  induction a with
  | nil => intro b; cases b <;> rfl
  | cons x xs ih =>
    intro b
    cases b with
    | nil => rfl
    | cons y ys =>
      simp only [pathCmp]
      cases hxy : charListCmp x y with
      | eq =>
        have hyx : charListCmp y x = Ordering.eq := by
          rw [← charListCmp_swap x y, hxy]
          rfl
        simp only [hxy, hyx]
        exact ih ys
      | lt =>
        have hyx : charListCmp y x = Ordering.gt := by
          rw [← charListCmp_swap x y, hxy]
          rfl
        simp only [hxy, hyx]
        rfl
      | gt =>
        have hyx : charListCmp y x = Ordering.lt := by
          rw [← charListCmp_swap x y, hxy]
          rfl
        simp only [hxy, hyx]
        rfl

lemma pathCmp_lt_trans (a : List (List Char)) : ∀ (b c : List (List Char)),
    pathCmp a b = .lt → pathCmp b c = .lt → pathCmp a c = .lt := by
  induction a with
  | nil =>
    intro b c h1 h2
    cases b with
    | nil => simp [pathCmp] at h1
    | cons y ys =>
      cases c with
      | nil => simp [pathCmp] at h2
      | cons z zs => simp [pathCmp]
  | cons x xs ih =>
    intro b c h1 h2
    cases b with
    | nil => simp [pathCmp] at h1
    | cons y ys =>
      cases c with
      | nil => simp [pathCmp] at h2
      | cons z zs =>
        simp only [pathCmp] at h1 h2 ⊢
        cases hxy : charListCmp x y with
        | eq =>
          have hx : x = y := (charListCmp_eq_iff x y).mp hxy
          subst hx
          rw [hxy] at h1
          cases hyz : charListCmp x z with
          | eq =>
            try rw [hyz] at h2
            try rw [hyz]
            exact ih ys zs h1 h2
          | lt =>
            try rw [hyz]
            try rfl
          | gt =>
            try rw [hyz] at h2
            simp at h2
        | lt =>
          cases hyz : charListCmp y z with
          | eq =>
            have hy : y = z := (charListCmp_eq_iff y z).mp hyz
            subst hy
            rw [hxy]
          | lt =>
            rw [charListCmp_lt_trans x y z hxy hyz]
          | gt =>
            rw [hyz] at h2
            simp at h2
        | gt =>
          rw [hxy] at h1
          simp at h1

lemma serviceCmp_eq_iff (a b : RunitService) : serviceCmp a b = .eq ↔ a = b := by
  cases a with
  | mk ap an =>
    cases b with
    | mk bp bn =>
      cases hp : pathCmp ap bp with
      | eq =>
        have hpe : ap = bp := (pathCmp_eq_iff ap bp).mp hp
        subst hpe
        simp [serviceCmp, hp, charListCmp_eq_iff]
      | lt =>
        have hpe : ap ≠ bp := fun he => by
          rw [he, pathCmp_self] at hp
          cases hp
        simp [serviceCmp, hp, hpe]
      | gt =>
        have hpe : ap ≠ bp := fun he => by
          rw [he, pathCmp_self] at hp
          cases hp
        simp [serviceCmp, hp, hpe]

lemma serviceCmp_swap (a b : RunitService) : (serviceCmp a b).swap = serviceCmp b a := by
  unfold serviceCmp
  cases hp : pathCmp a.path b.path with
  | eq =>
    have hp2 : pathCmp b.path a.path = Ordering.eq := by
      rw [← pathCmp_swap a.path b.path, hp]
      rfl
    simp only [hp, hp2]
    exact charListCmp_swap a.name b.name
  | lt =>
    have hp2 : pathCmp b.path a.path = Ordering.gt := by
      rw [← pathCmp_swap a.path b.path, hp]
      rfl
    simp only [hp, hp2]
    rfl
  | gt =>
    have hp2 : pathCmp b.path a.path = Ordering.lt := by
      rw [← pathCmp_swap a.path b.path, hp]
      rfl
    simp only [hp, hp2]
    rfl

lemma serviceCmp_lt_trans (a b c : RunitService) (h1 : serviceCmp a b = .lt)
    (h2 : serviceCmp b c = .lt) : serviceCmp a c = .lt := by
  unfold serviceCmp at h1 h2 ⊢
  cases hab : pathCmp a.path b.path with
  | eq =>
    have he : a.path = b.path := (pathCmp_eq_iff _ _).mp hab
    rw [hab] at h1
    cases hbc : pathCmp b.path c.path with
    | eq =>
      have he2 : b.path = c.path := (pathCmp_eq_iff _ _).mp hbc
      rw [hbc] at h2
      rw [he, he2, pathCmp_self]
      exact charListCmp_lt_trans _ _ _ h1 h2
    | lt =>
      rw [he, hbc]
    | gt =>
      rw [hbc] at h2
      cases h2
  | lt =>
    cases hbc : pathCmp b.path c.path with
    | eq =>
      have he2 : b.path = c.path := (pathCmp_eq_iff _ _).mp hbc
      rw [← he2, hab]
    | lt =>
      rw [pathCmp_lt_trans _ _ _ hab hbc]
    | gt =>
      rw [hbc] at h2
      cases h2
  | gt =>
    rw [hab] at h1
    cases h1

lemma serviceLe_trans (a b c : RunitService) (h1 : serviceLe a b = true)
    (h2 : serviceLe b c = true) : serviceLe a c = true := by
  simp only [serviceLe, ne_eq, decide_not, Bool.not_eq_true', decide_eq_false_iff_not] at h1 h2 ⊢
  cases hab : serviceCmp a b with
  | gt => exact absurd hab h1
  | eq =>
    have he : a = b := (serviceCmp_eq_iff a b).mp hab
    subst he
    exact h2
  | lt =>
    cases hbc : serviceCmp b c with
    | gt => exact absurd hbc h2
    | eq =>
      have he : b = c := (serviceCmp_eq_iff b c).mp hbc
      subst he
      rw [hab]
      simp
    | lt =>
      rw [serviceCmp_lt_trans a b c hab hbc]
      simp

lemma serviceLe_total (a b : RunitService) : (serviceLe a b || serviceLe b a) = true := by
  simp only [serviceLe, ne_eq, decide_not, Bool.or_eq_true, Bool.not_eq_true',
    decide_eq_false_iff_not]
  cases hab : serviceCmp a b with
  | gt =>
    right
    have hs := serviceCmp_swap a b
    rw [hab] at hs
    rw [← hs]
    simp [Ordering.swap]
  | eq => left; simp
  | lt => left; simp



lemma pathCmp_append_single (r : List (List Char)) (x y : List Char) :
    pathCmp (r ++ [x]) (r ++ [y]) = charListCmp x y := by
  induction r with
  | nil =>
    simp only [List.nil_append]
    cases h : charListCmp x y <;> simp [pathCmp, h]
  | cons hd tl ih =>
    simp only [List.cons_append, pathCmp, charListCmp_self]
    exact ih

lemma serviceLe_name (r : List (List Char)) (a b : RunitService)
    (ha : a.path = r ++ [a.name]) (hb : b.path = r ++ [b.name]) :
    serviceLe a b = charListLe a.name b.name := by
  unfold serviceLe charListLe serviceCmp
  rw [ha, hb, pathCmp_append_single]
  cases hc : charListCmp a.name b.name <;> simp [hc]

lemma collectServices_shape (root : List (List Char))
    (filter : Option (List Char)) :
    ∀ entries svc, svc ∈ collectServices root false filter entries →
      svc.path = root ++ [svc.name] := by
  intro entries
  induction entries with
  | nil =>
    intro svc h
    simp [collectServices] at h
  | cons entry rest ih =>
    intro svc h
    by_cases hd : entry.isDir
    · simp only [collectServices, hd, Bool.not_true, Bool.false_eq_true,
        if_false] at h
      cases hf : (match filter with
          | some f => !(listContains entry.name f)
          | none => false) with
      | true =>
        rw [if_pos hf] at h
        exact ih svc h
      | false =>
        rw [if_neg (by simp [hf])] at h
        simp only [if_false, List.nil_append] at h
        rcases List.mem_cons.mp h with he | hr
        · subst he
          rfl
        · exact ih svc hr
    · simp only [collectServices, hd] at h
      simp at h
      exact ih svc h


lemma mem_insertLe {α : Type} (le : α → α → Bool) (x a : α) :
    ∀ l, a ∈ insertLe le x l ↔ a = x ∨ a ∈ l := by
  intro l
  induction l with
  | nil => simp [insertLe]
  | cons y ys ih =>
    by_cases h : le x y
    · simp [insertLe, h]
    · simp [insertLe, h, ih]
      tauto

lemma sorted_insertLe {α : Type} (le : α → α → Bool)
    (htrans : ∀ a b c, le a b = true → le b c = true → le a c = true)
    (htot : ∀ a b, (le a b || le b a) = true) (x : α) :
    ∀ l, l.Pairwise (fun a b => le a b = true) →
      (insertLe le x l).Pairwise (fun a b => le a b = true) := by
  intro l
  induction l with
  | nil =>
    intro _
    simp [insertLe]
  | cons y ys ih =>
    intro hl
    have hy : ∀ b ∈ ys, le y b = true := fun b hb =>
      (List.pairwise_cons.mp hl).1 b hb
    have hys : ys.Pairwise (fun a b => le a b = true) :=
      (List.pairwise_cons.mp hl).2
    by_cases h : le x y
    · simp only [insertLe, h, if_pos]
      refine List.pairwise_cons.mpr ⟨?_, hl⟩
      intro b hb
      rcases List.mem_cons.mp hb with he | hm
      · subst he
        exact h
      · exact htrans x y b h (hy b hm)
    · have hyx : le y x = true := by
        have := htot x y
        simp [h] at this
        exact this
      simp only [insertLe, h, if_neg, Bool.false_eq_true, not_false_iff]
      refine List.pairwise_cons.mpr ⟨?_, ih hys⟩
      intro b hb
      rcases (mem_insertLe le x b ys).mp hb with he | hm
      · subst he
        exact hyx
      · exact hy b hm

lemma sorted_sortLe {α : Type} (le : α → α → Bool)
    (htrans : ∀ a b c, le a b = true → le b c = true → le a c = true)
    (htot : ∀ a b, (le a b || le b a) = true) :
    ∀ l : List α, (sortLe le l).Pairwise (fun a b => le a b = true) := by
  intro l
  induction l with
  | nil => simp [sortLe]
  | cons x xs ih => exact sorted_insertLe le htrans htot x _ ih

lemma mem_sortLe {α : Type} (le : α → α → Bool) (a : α) :
    ∀ l, a ∈ sortLe le l ↔ a ∈ l := by
  intro l
  induction l with
  | nil => simp [sortLe]
  | cons x xs ih =>
    simp [sortLe, mem_insertLe, ih]

/-- C1 (amended): for every supervision root and enumeration order, the
list returned by `get_services` is sorted under the derived `Ord` of
`RunitService` — path first, then name — and the sort happens after
companion expansion; when log expansion is off this coincides with sorting
by service name ascending in byte-wise order.  (With log expansion on the
list is in path order, each `"- log"` companion directly after its parent,
and need not be name-sorted — see the counterexample.) -/
theorem get_services_sorted_spec (root : List (List Char))
    (entries : List DirEntry) (log : Bool) (filter : Option (List Char)) :
    sortedByOrd (get_services root entries log filter) ∧
    (log = false → sortedByName (get_services root entries log filter)) := by
  constructor
  · exact sorted_sortLe serviceLe serviceLe_trans serviceLe_total _
  · intro hlog
    subst hlog
    have hp := sorted_sortLe serviceLe serviceLe_trans serviceLe_total
      (collectServices root false filter entries)
    unfold get_services
    refine List.Pairwise.imp_of_mem ?_ hp
    intro a b ha hb hle
    have hsa := collectServices_shape root filter entries a
      ((mem_sortLe serviceLe a _).mp ha)
    have hsb := collectServices_shape root filter entries b
      ((mem_sortLe serviceLe b _).mp hb)
    rw [serviceLe_name root a b hsa hsb] at hle
    exact hle

/-- Witness for C1: without log expansion the output is name-sorted. -/
theorem get_services_witness :
    sortedByName (get_services [] cexEntries false none) ∧
    (get_services [] cexEntries false none).map RunitService.name =
      ["a".toList, "b".toList] := by
  constructor
  · exact (get_services_sorted_spec [] cexEntries false none).2 rfl
  · decide

/-- C1 counterexample: with log expansion the output names are
`a, - log, b, - log`, which is not sorted byte-wise by name, refuting
"sorted by service name ascending ... including any synthesized
log-companion records". -/
theorem get_services_name_sorted_cex :
    ((get_services [] cexEntries true none).map RunitService.name =
      ["a".toList, "- log".toList, "b".toList, "- log".toList]) ∧
    ¬ sortedByName (get_services [] cexEntries true none) := by decide

end Vsv
